import Mathlib

/-!
Verification of the module/parameter registry in `minitorch/module.py`.

The embedding models Python dictionaries as insertion-ordered association
lists (`List (String × α)`), with `dictInsert` giving the semantics of
`d[k] = v` (replace in place when the key is present, append otherwise) and
`dictUpdate` the semantics of `d.update(other)`.

Wrapped values (the payloads stored inside `Parameter`) are modelled by
`PValue`: an abstract payload together with the two capabilities the source
probes for — a `requires_grad_` toggle (`hasRequiresGrad` models the
`hasattr` check, `requiresGrad` the flag it sets) and a settable `name`
field.  Plain (non-`Parameter`, non-`Module`) attribute values are modelled
by `Plain`.

`Module` is a tree: its `_parameters` dict, its `_modules` dict (a `ModList`,
an association list of child modules, mutually inductive with `Module`), and
the remaining instance `__dict__` entries (`fields`, which in particular
holds the `training` flag, since `self.training = True` is routed through
`__setattr__` into plain storage).
-/

namespace Minitorch

/-! ### Ordered dictionaries as association lists -/

def dictLookup {α : Type} : List (String × α) → String → Option α
  | [], _ => none
  | (k', v) :: rest, k => if k' = k then some v else dictLookup rest k

/-- `d[k] = v`: replace in place if `k` is a key of `d`, else append. -/
def dictInsert {α : Type} : List (String × α) → String → α → List (String × α)
  | [], k, v => [(k, v)]
  | (k', v') :: rest, k, v =>
    if k' = k then (k, v) :: rest else (k', v') :: dictInsert rest k v

/-- `d.update(other)`: insert every entry of `other` into `d`, in order. -/
def dictUpdate {α : Type} (d other : List (String × α)) : List (String × α) :=
  other.foldl (fun acc kv => dictInsert acc kv.1 kv.2) d

/-- Merging a list of entries into an initially empty dict. -/
def collapse {α : Type} (l : List (String × α)) : List (String × α) :=
  dictUpdate [] l

/-- The keys of the dict are pairwise distinct (true of every Python dict). -/
def nodupKeys {α : Type} : List (String × α) → Bool
  | [] => true
  | (k, _) :: rest => (dictLookup rest k).isNone && nodupKeys rest

/-- Remove every entry under key `k`. -/
def removeKey {α : Type} (l : List (String × α)) (k : String) : List (String × α) :=
  l.filter (fun kv => !(kv.1 == k))

/-- The dict comprehension prefixing every key of a child's parameter dict
with the child's name and a dot, as the f-string `f"..."` in
`_named_parameters` does. -/
def prefixedBy {α : Type} (c : String) (l : List (String × α)) : List (String × α) :=
  l.map (fun kv => (c ++ "." ++ kv.1, kv.2))

/-! ### Parameter -/

/-- A value that may be wrapped by a `Parameter`.  `hasRequiresGrad` models
`hasattr(x, "requires_grad_")`; `requiresGrad` is the flag that
`x.requires_grad_(True)` sets; `name` is the settable `x.name` field. -/
structure PValue where
  payload : Int
  hasRequiresGrad : Bool
  requiresGrad : Bool
  name : Option String
deriving DecidableEq, Repr

/-- Python truthiness of the `name` attribute: `if self.name:` is false for
`None` and for the empty string. -/
def truthyName : Option String → Bool
  | none => false
  | some s => !(s == "")

/-- The body shared by `Parameter.__init__` and `Parameter.update`:
`if hasattr(x, "requires_grad_"): x.requires_grad_(True); if self.name:
x.name = self.name`. -/
def applyGradRule (x : PValue) (name : Option String) : PValue :=
  if x.hasRequiresGrad then
    let x1 := { x with requiresGrad := true }
    if truthyName name then { x1 with name := name } else x1
  else x

structure Parameter where
  value : PValue
  name : Option String
deriving DecidableEq, Repr

/-- `Parameter.__init__(x, name)`. -/
def Parameter.init (x : PValue) (name : Option String) : Parameter :=
  { value := applyGradRule x name, name := name }

/-- `Parameter.update(x)`. -/
def Parameter.update (p : Parameter) (x : PValue) : Parameter :=
  { p with value := applyGradRule x p.name }

/-! ### Module -/

/-- A plain (non-`Parameter`, non-`Module`) attribute value. -/
inductive Plain where
  | bool (b : Bool)
  | int (n : Int)
  | str (s : String)
deriving DecidableEq, Repr

mutual
inductive Module : Type where
  | mk (params : List (String × Parameter)) (mods : ModList)
       (fields : List (String × Plain)) : Module
inductive ModList : Type where
  | nil : ModList
  | cons (key : String) (m : Module) (rest : ModList) : ModList
end

def Module.paramsOf : Module → List (String × Parameter)
  | .mk ps _ _ => ps

def Module.modsOf : Module → ModList
  | .mk _ ms _ => ms

def Module.fieldsOf : Module → List (String × Plain)
  | .mk _ _ fs => fs

def mlLookup : ModList → String → Option Module
  | .nil, _ => none
  | .cons k' m rest, k => if k' = k then some m else mlLookup rest k

def mlInsert : ModList → String → Module → ModList
  | .nil, k, m => .cons k m .nil
  | .cons k' m' rest, k, m =>
    if k' = k then .cons k m rest else .cons k' m' (mlInsert rest k m)

def mlNodup : ModList → Bool
  | .nil => true
  | .cons k _ rest => (mlLookup rest k).isNone && mlNodup rest

/-- `Module.__init__`: `self._modules = {}`, `self._parameters = {}`,
`self.training = True` (the last one routed by `__setattr__` into plain
instance storage). -/
def Module.init : Module :=
  Module.mk [] ModList.nil [("training", Plain.bool true)]

/-- A value assigned to, or read from, an attribute of a module. -/
inductive AttrVal where
  | param (p : Parameter)
  | module (m : Module)
  | plain (v : Plain)

/-- `Module.__setattr__`: a `Parameter` goes to `_parameters`, a `Module`
goes to `_modules`, anything else to plain instance storage. -/
def Module.setattr (m : Module) (key : String) (v : AttrVal) : Module :=
  match m, v with
  | .mk ps ms fs, .param p => .mk (dictInsert ps key p) ms fs
  | .mk ps ms fs, .module c => .mk ps (mlInsert ms key c) fs
  | .mk ps ms fs, .plain x => .mk ps ms (dictInsert fs key x)

/-- `Module.__getattr__`: consulted only when normal lookup fails; checks
`_parameters`, then `_modules`, and otherwise falls through — the source has
no `raise`, so the read produces Python `None`, modelled by `none`. -/
def Module.getattr (m : Module) (key : String) : Option AttrVal :=
  match m with
  | .mk ps ms _ =>
    match dictLookup ps key with
    | some p => some (.param p)
    | none =>
      match mlLookup ms key with
      | some c => some (.module c)
      | none => none

/-- A full Python attribute read: the instance `__dict__` (plain fields)
takes precedence, and `__getattr__` is consulted only on a miss. -/
def Module.readAttr (m : Module) (key : String) : Option AttrVal :=
  match dictLookup m.fieldsOf key with
  | some x => some (.plain x)
  | none => m.getattr key

/-- `Module.add_parameter(k, v)`: wrap `v` in `Parameter(v, k)`, store it in
`_parameters` under `k`, return it alongside the updated module. -/
def Module.add_parameter (m : Module) (k : String) (v : PValue) :
    Module × Parameter :=
  match m with
  | .mk ps ms fs =>
    let val := Parameter.init v (some k)
    (.mk (dictInsert ps k val) ms fs, val)

mutual
/-- `Module.train`: `self.training = True` (a plain-field insert, exactly the
`__setattr__` routing), then recurse into every child in order. -/
def Module.train : Module → Module
  | .mk ps ms fs => .mk ps (ModList.trainAll ms) (dictInsert fs "training" (Plain.bool true))
def ModList.trainAll : ModList → ModList
  | .nil => .nil
  | .cons k m rest => .cons k m.train (ModList.trainAll rest)
end

mutual
/-- `Module.eval`: `self.training = False`, then recurse into every child. -/
def Module.eval : Module → Module
  | .mk ps ms fs => .mk ps (ModList.evalAll ms) (dictInsert fs "training" (Plain.bool false))
def ModList.evalAll : ModList → ModList
  | .nil => .nil
  | .cons k m rest => .cons k m.eval (ModList.evalAll rest)
end

mutual
/-- `Module._named_parameters`: start from a copy of `_parameters`, then for
each child in order `update` with the child's parameters under dotted keys. -/
def Module._named_parameters : Module → List (String × Parameter)
  | .mk ps ms _ => npFold ps ms
def npFold (acc : List (String × Parameter)) : ModList → List (String × Parameter)
  | .nil => acc
  | .cons c child rest =>
    npFold (dictUpdate acc (prefixedBy c (Module._named_parameters child))) rest
end

/-- `Module.named_parameters`: `list(self._named_parameters().items())`. -/
def Module.named_parameters (m : Module) : List (String × Parameter) :=
  m._named_parameters

/-- `Module.parameters`: the values of `named_parameters`, names dropped. -/
def Module.parameters (m : Module) : List Parameter :=
  (m.named_parameters).map Prod.snd

mutual
/-- Modelled from the spec: the claimed enumeration — this module's own
parameters first, in insertion order, then each child's contribution
(recursively, same rule) under dotted keys, in child-insertion order, with
no collision handling.  Used to compare the code's `_named_parameters`
against the claimed pair list. -/
def Module.specNamed : Module → List (String × Parameter)
  | .mk ps ms _ => ps ++ specNamedL ms
def specNamedL : ModList → List (String × Parameter)
  | .nil => []
  | .cons c child rest =>
    prefixedBy c (Module.specNamed child) ++ specNamedL rest
end

mutual
/-- The standing Python-dict invariant: every dict in the tree has pairwise
distinct keys. -/
def Module.wf : Module → Bool
  | .mk ps ms fs => nodupKeys ps && mlNodup ms && nodupKeys fs && ModList.wfAll ms
def ModList.wfAll : ModList → Bool
  | .nil => true
  | .cons _ c rest => c.wf && ModList.wfAll rest
end

mutual
/-- The tree with every `training` entry erased; train/eval change nothing
else, which is what the frame claim states. -/
def Module.eraseT : Module → Module
  | .mk ps ms fs => .mk ps (ModList.eraseTL ms) (removeKey fs "training")
def ModList.eraseTL : ModList → ModList
  | .nil => .nil
  | .cons k m rest => .cons k m.eraseT (ModList.eraseTL rest)
end

mutual
/-- Every module in the tree has its `training` plain field equal to `b`. -/
def Module.allTraining (b : Bool) : Module → Bool
  | .mk _ ms fs =>
    decide (dictLookup fs "training" = some (Plain.bool b)) && ModList.allTrainingL b ms
def ModList.allTrainingL (b : Bool) : ModList → Bool
  | .nil => true
  | .cons _ m rest => Module.allTraining b m && ModList.allTrainingL b rest
end

/-- `Module.forward` on the base type: `assert False, "Not Implemented"`. -/
def Module.forward (_ : Module) : Except String Plain :=
  Except.error "Not Implemented"

/-- `Module.__call__`: delegates to `forward`. -/
def Module.call (m : Module) : Except String Plain :=
  m.forward

/-! ### Induction principles for the mutual module tree -/

theorem moduleInd (P : Module → Prop) (Q : ModList → Prop)
    (hmk : ∀ ps ms fs, Q ms → P (Module.mk ps ms fs))
    (hnil : Q ModList.nil)
    (hcons : ∀ k m rest, P m → Q rest → Q (ModList.cons k m rest)) :
    ∀ m, P m :=
  fun m => @Module.rec P Q hmk hnil hcons m

theorem modListInd (P : Module → Prop) (Q : ModList → Prop)
    (hmk : ∀ ps ms fs, Q ms → P (Module.mk ps ms fs))
    (hnil : Q ModList.nil)
    (hcons : ∀ k m rest, P m → Q rest → Q (ModList.cons k m rest)) :
    ∀ ms, Q ms :=
  fun ms => @ModList.rec P Q hmk hnil hcons ms

/-! ### Dictionary lemmas -/

theorem lookup_insert_self {α : Type} (d : List (String × α)) (k : String) (v : α) :
    dictLookup (dictInsert d k v) k = some v := by
  induction d with
  | nil => simp [dictInsert, dictLookup]
  | cons hd rest ih =>
    obtain ⟨k', v'⟩ := hd
    by_cases h : k' = k
    · simp [dictInsert, dictLookup, h]
    · simp [dictInsert, dictLookup, h, ih]

theorem lookup_insert_ne {α : Type} (d : List (String × α)) (k k' : String) (v : α)
    (hne : k' ≠ k) : dictLookup (dictInsert d k v) k' = dictLookup d k' := by
  induction d with
  | nil => simp [dictInsert, dictLookup, Ne.symm hne]
  | cons hd rest ih =>
    obtain ⟨k2, v2⟩ := hd
    by_cases h : k2 = k
    · subst h
      simp [dictInsert, dictLookup, Ne.symm hne]
    · simp [dictInsert, dictLookup, h, ih]

theorem insert_append_of_lookup_none {α : Type} (d : List (String × α)) (k : String) (v : α)
    (h : dictLookup d k = none) : dictInsert d k v = d ++ [(k, v)] := by
  induction d with
  | nil => simp [dictInsert]
  | cons hd rest ih =>
    obtain ⟨k', v'⟩ := hd
    by_cases hk : k' = k
    · simp [dictLookup, hk] at h
    · simp [dictLookup, hk] at h
      simp [dictInsert, hk, ih h]

theorem insert_insert_same {α : Type} (d : List (String × α)) (k : String) (v' v : α) :
    dictInsert (dictInsert d k v') k v = dictInsert d k v := by
  induction d with
  | nil => simp [dictInsert]
  | cons hd rest ih =>
    obtain ⟨k2, u⟩ := hd
    by_cases h : k2 = k
    · simp [dictInsert, h]
    · simp [dictInsert, h, ih]

theorem insert_comm_of_isSome {α : Type} (d : List (String × α)) (k k2 : String) (v v2 : α)
    (hne : k ≠ k2) (hmem : (dictLookup d k).isSome = true) :
    dictInsert (dictInsert d k v) k2 v2 = dictInsert (dictInsert d k2 v2) k v := by
  induction d with
  | nil => simp [dictLookup] at hmem
  | cons hd rest ih =>
    obtain ⟨k3, u⟩ := hd
    by_cases h3 : k3 = k
    · subst h3
      simp [dictInsert, hne, Ne.symm hne]
    · by_cases h32 : k3 = k2
      · subst h32
        simp [dictInsert, h3, hne, Ne.symm hne]
      · simp [dictLookup, h3] at hmem
        simp [dictInsert, h3, h32, ih hmem]

theorem nodup_insert {α : Type} (d : List (String × α)) (k : String) (v : α)
    (h : nodupKeys d = true) : nodupKeys (dictInsert d k v) = true := by
  induction d with
  | nil => simp [dictInsert, nodupKeys, dictLookup]
  | cons hd rest ih =>
    obtain ⟨k', v'⟩ := hd
    simp [nodupKeys] at h
    by_cases hk : k' = k
    · subst hk
      simp [dictInsert, nodupKeys, h.1, h.2]
    · simp [dictInsert, hk, nodupKeys, lookup_insert_ne rest k k' v hk, h.1, ih h.2]

theorem update_cons {α : Type} (d : List (String × α)) (k : String) (v : α)
    (l : List (String × α)) :
    dictUpdate d ((k, v) :: l) = dictUpdate (dictInsert d k v) l := rfl

theorem update_append {α : Type} (d l1 l2 : List (String × α)) :
    dictUpdate d (l1 ++ l2) = dictUpdate (dictUpdate d l1) l2 := by
  simp [dictUpdate, List.foldl_append]

theorem nodup_update {α : Type} (d l : List (String × α))
    (h : nodupKeys d = true) : nodupKeys (dictUpdate d l) = true := by
  induction l generalizing d with
  | nil => exact h
  | cons hd rest ih =>
    obtain ⟨k, v⟩ := hd
    exact ih (dictInsert d k v) (nodup_insert d k v h)

theorem insert_update_comm {α : Type} (X l : List (String × α)) (k : String) (v : α)
    (hX : (dictLookup X k).isSome = true) (hl : dictLookup l k = none) :
    dictInsert (dictUpdate X l) k v = dictUpdate (dictInsert X k v) l := by
  induction l generalizing X with
  | nil => rfl
  | cons hd rest ih =>
    obtain ⟨k2, u⟩ := hd
    by_cases hk : k2 = k
    · simp [dictLookup, hk] at hl
    · simp [dictLookup, hk] at hl
      rw [update_cons, update_cons]
      have hX2 : (dictLookup (dictInsert X k2 u) k).isSome = true := by
        rw [lookup_insert_ne X k2 k u (fun h => hk h.symm)]
        exact hX
      rw [ih (dictInsert X k2 u) hX2 hl]
      rw [insert_comm_of_isSome X k k2 v u (fun h => hk h.symm) hX]

theorem update_insert {α : Type} (acc d : List (String × α)) (k : String) (v : α)
    (h : nodupKeys d = true) :
    dictUpdate acc (dictInsert d k v) = dictInsert (dictUpdate acc d) k v := by
  induction d generalizing acc with
  | nil => rfl
  | cons hd rest ih =>
    obtain ⟨k', u⟩ := hd
    simp [nodupKeys] at h
    obtain ⟨hfree, hrest⟩ := h
    by_cases hk : k' = k
    · subst hk
      have h1 : dictInsert ((k', u) :: rest) k' v = (k', v) :: rest := by
        simp [dictInsert]
      rw [h1, update_cons, update_cons]
      rw [insert_update_comm (dictInsert acc k' u) rest k' v
        (by rw [lookup_insert_self]; rfl) hfree]
      rw [insert_insert_same]
    · have h1 : dictInsert ((k', u) :: rest) k v = (k', u) :: dictInsert rest k v := by
        simp [dictInsert, hk]
      rw [h1, update_cons, update_cons, ih (dictInsert acc k' u) hrest]

theorem update_assoc {α : Type} (acc d l : List (String × α))
    (h : nodupKeys d = true) :
    dictUpdate acc (dictUpdate d l) = dictUpdate (dictUpdate acc d) l := by
  induction l generalizing d with
  | nil => rfl
  | cons hd rest ih =>
    obtain ⟨k, v⟩ := hd
    rw [update_cons, update_cons, ih (dictInsert d k v) (nodup_insert d k v h),
      update_insert acc d k v h]

theorem update_collapse {α : Type} (acc l : List (String × α)) :
    dictUpdate acc (collapse l) = dictUpdate acc l := by
  rw [collapse, update_assoc acc [] l rfl]
  rfl

theorem lookup_append {α : Type} (l1 l2 : List (String × α)) (k : String) :
    dictLookup (l1 ++ l2) k =
      match dictLookup l1 k with
      | some v => some v
      | none => dictLookup l2 k := by
  induction l1 with
  | nil => simp [dictLookup]
  | cons hd rest ih =>
    obtain ⟨k', v'⟩ := hd
    by_cases h : k' = k
    · simp [dictLookup, h]
    · simp [dictLookup, h, ih]

theorem lookup_update_rev {α : Type} (d l : List (String × α)) (k : String) :
    dictLookup (dictUpdate d l) k =
      match dictLookup l.reverse k with
      | some v => some v
      | none => dictLookup d k := by
  induction l generalizing d with
  | nil => simp [dictUpdate, dictLookup]
  | cons hd rest ih =>
    obtain ⟨a, b⟩ := hd
    rw [update_cons, ih (dictInsert d a b)]
    have hrev : ((a, b) :: rest).reverse = rest.reverse ++ [(a, b)] := by simp
    rw [hrev, lookup_append]
    cases hr : dictLookup rest.reverse k with
    | some v => simp
    | none =>
      by_cases hk : a = k
      · subst hk
        simp [dictLookup, lookup_insert_self]
      · simp [dictLookup, hk, lookup_insert_ne d a k b (fun h => hk h.symm)]

theorem lookup_collapse {α : Type} (l : List (String × α)) (k : String) :
    dictLookup (collapse l) k = dictLookup l.reverse k := by
  rw [collapse, lookup_update_rev]
  cases h : dictLookup l.reverse k <;> simp [dictLookup]

theorem nodup_collapse {α : Type} (l : List (String × α)) :
    nodupKeys (collapse l) = true :=
  nodup_update [] l rfl

theorem update_disjoint_append {α : Type} (l d : List (String × α))
    (hnd : nodupKeys l = true)
    (hdis : ∀ k, (dictLookup l k).isSome = true → dictLookup d k = none) :
    dictUpdate d l = d ++ l := by
  induction l generalizing d with
  | nil => simp [dictUpdate]
  | cons hd rest ih =>
    obtain ⟨k, v⟩ := hd
    simp [nodupKeys] at hnd
    obtain ⟨hfree, hrest⟩ := hnd
    have hdk : dictLookup d k = none := by
      apply hdis k
      simp [dictLookup]
    rw [update_cons, insert_append_of_lookup_none d k v hdk]
    rw [ih (d ++ [(k, v)]) hrest]
    · simp
    · intro k' hk'
      have hne : k ≠ k' := by
        intro h
        subst h
        rw [hfree] at hk'
        simp at hk'
      have hd' : dictLookup d k' = none := by
        apply hdis k'
        simpa [dictLookup, hne] using hk'
      rw [lookup_append]
      simp [hd', dictLookup, hne]

theorem collapse_self {α : Type} (l : List (String × α))
    (h : nodupKeys l = true) : collapse l = l := by
  rw [collapse, update_disjoint_append l [] h (fun k _ => rfl)]
  simp

/-! ### Prefixed keys -/

theorem strAppendLeftInj (c a b : String) (h : c ++ a = c ++ b) : a = b := by
  have hd : (c ++ a).data = (c ++ b).data := congrArg String.data h
  rw [String.data_append, String.data_append] at hd
  exact String.ext (List.append_cancel_left hd)

theorem prefixed_insert {α : Type} (c : String) (d : List (String × α)) (k : String) (v : α) :
    prefixedBy c (dictInsert d k v) = dictInsert (prefixedBy c d) (c ++ "." ++ k) v := by
  induction d with
  | nil => simp [prefixedBy, dictInsert]
  | cons hd rest ih =>
    obtain ⟨k', v'⟩ := hd
    by_cases h : k' = k
    · subst h
      simp [prefixedBy, dictInsert]
    · have hne : ¬(c ++ "." ++ k' = c ++ "." ++ k) :=
        fun hh => h (strAppendLeftInj (c ++ ".") k' k hh)
      simp only [prefixedBy, List.map] at ih ⊢
      simp [dictInsert, h, hne, ih]

theorem prefixed_update {α : Type} (c : String) (d l : List (String × α)) :
    prefixedBy c (dictUpdate d l) = dictUpdate (prefixedBy c d) (prefixedBy c l) := by
  induction l generalizing d with
  | nil => rfl
  | cons hd rest ih =>
    obtain ⟨k, v⟩ := hd
    have hcons : prefixedBy c ((k, v) :: rest) = (c ++ "." ++ k, v) :: prefixedBy c rest := rfl
    rw [hcons, update_cons, update_cons, ih (dictInsert d k v), prefixed_insert]

theorem prefixed_collapse {α : Type} (c : String) (l : List (String × α)) :
    prefixedBy c (collapse l) = collapse (prefixedBy c l) := by
  rw [collapse, collapse, prefixed_update]
  rfl

/-! ### The named-parameter enumeration -/

/-- What `_named_parameters` computes: the claimed dotted-path enumeration
(`specNamed`), merged into a single dict — so duplicate flattened keys are
collapsed, the later contribution overwriting the earlier one. -/
theorem namedParams_collapse (m : Module) (h : Module.wf m = true) :
    Module._named_parameters m = collapse (Module.specNamed m) := by
  revert h
  refine moduleInd
    (fun m => Module.wf m = true →
      Module._named_parameters m = collapse (Module.specNamed m))
    (fun ms => ModList.wfAll ms = true →
      ∀ acc, npFold acc ms = dictUpdate acc (specNamedL ms)) ?_ ?_ ?_ m
  · intro ps ms fs hQ hwf
    simp only [Module.wf, Bool.and_eq_true] at hwf
    obtain ⟨⟨⟨h1, _⟩, _⟩, h4⟩ := hwf
    show npFold ps ms = collapse (ps ++ specNamedL ms)
    rw [hQ h4 ps, collapse, update_append, ← collapse, collapse_self ps h1]
  · intro _ acc
    rfl
  · intro k m rest hP hQ hwf acc
    simp only [ModList.wfAll, Bool.and_eq_true] at hwf
    obtain ⟨hm, hrest⟩ := hwf
    show npFold (dictUpdate acc (prefixedBy k (Module._named_parameters m))) rest =
      dictUpdate acc (prefixedBy k (Module.specNamed m) ++ specNamedL rest)
    rw [hQ hrest, hP hm, prefixed_collapse, update_collapse, update_append]

/-! ### Small helper lemmas on modules -/

theorem mlLookup_insert_self (k : String) (c : Module) :
    ∀ ms, mlLookup (mlInsert ms k c) k = some c :=
  modListInd (fun _ => True)
    (fun ms => mlLookup (mlInsert ms k c) k = some c)
    (fun _ _ _ _ => trivial)
    (by simp [mlInsert, mlLookup])
    (fun k' m rest _ ih => by
      by_cases h : k' = k <;> simp [mlInsert, mlLookup, h, ih])

theorem removeKey_insert {α : Type} (l : List (String × α)) (k : String) (v : α) :
    removeKey (dictInsert l k v) k = removeKey l k := by
  induction l with
  | nil => simp [dictInsert, removeKey]
  | cons hd rest ih =>
    obtain ⟨k', v'⟩ := hd
    by_cases h : k' = k
    · subst h
      simp [dictInsert, removeKey]
    · simp only [removeKey] at ih ⊢
      simp [dictInsert, h, ih]

theorem train_allTraining : ∀ m, Module.allTraining true (Module.train m) = true :=
  moduleInd (fun m => Module.allTraining true (Module.train m) = true)
    (fun ms => ModList.allTrainingL true (ModList.trainAll ms) = true)
    (fun ps ms fs ih => by
      simp [Module.train, Module.allTraining, lookup_insert_self, ih])
    (by simp [ModList.trainAll, ModList.allTrainingL])
    (fun k m rest ihm ihr => by
      simp [ModList.trainAll, ModList.allTrainingL, ihm, ihr])

theorem eval_allTraining : ∀ m, Module.allTraining false (Module.eval m) = true :=
  moduleInd (fun m => Module.allTraining false (Module.eval m) = true)
    (fun ms => ModList.allTrainingL false (ModList.evalAll ms) = true)
    (fun ps ms fs ih => by
      simp [Module.eval, Module.allTraining, lookup_insert_self, ih])
    (by simp [ModList.evalAll, ModList.allTrainingL])
    (fun k m rest ihm ihr => by
      simp [ModList.evalAll, ModList.allTrainingL, ihm, ihr])

theorem eraseT_train : ∀ m, Module.eraseT (Module.train m) = Module.eraseT m :=
  moduleInd (fun m => Module.eraseT (Module.train m) = Module.eraseT m)
    (fun ms => ModList.eraseTL (ModList.trainAll ms) = ModList.eraseTL ms)
    (fun ps ms fs ih => by
      simp [Module.train, Module.eraseT, ih, removeKey_insert])
    rfl
    (fun k m rest ihm ihr => by
      simp [ModList.trainAll, ModList.eraseTL, ihm, ihr])

theorem eraseT_eval : ∀ m, Module.eraseT (Module.eval m) = Module.eraseT m :=
  moduleInd (fun m => Module.eraseT (Module.eval m) = Module.eraseT m)
    (fun ms => ModList.eraseTL (ModList.evalAll ms) = ModList.eraseTL ms)
    (fun ps ms fs ih => by
      simp [Module.eval, Module.eraseT, ih, removeKey_insert])
    rfl
    (fun k m rest ihm ihr => by
      simp [ModList.evalAll, ModList.eraseTL, ihm, ihr])

/-! ### Concrete values and modules for witnesses and counterexamples -/

/-- A wrapped value with no gradient-toggle capability, payload 5. -/
def five : PValue :=
  { payload := 5, hasRequiresGrad := false, requiresGrad := false, name := none }

def ten : PValue :=
  { payload := 10, hasRequiresGrad := false, requiresGrad := false, name := none }

def one : PValue :=
  { payload := 1, hasRequiresGrad := false, requiresGrad := false, name := none }

def two : PValue :=
  { payload := 2, hasRequiresGrad := false, requiresGrad := false, name := none }

/-- A wrapped value that exposes the gradient toggle and carries its own name. -/
def yGrad : PValue :=
  { payload := 7, hasRequiresGrad := true, requiresGrad := false, name := some "orig" }

/-- The spec's example tree: root `R` holding parameter `"p"`, child `"a"`
holding parameter `"p2"`. -/
def childEx : Module := ((Module.init).add_parameter "p2" ten).1

def rootEx : Module :=
  (((Module.init).add_parameter "p" five).1).setattr "a" (AttrVal.module childEx)

/-- A collision tree: the root owns a parameter with local name `"a.p"`, and
its child `"a"` owns a parameter `"p"`, so both flatten to the key `"a.p"`. -/
def childC : Module := ((Module.init).add_parameter "p" two).1

def rootC : Module :=
  (((Module.init).add_parameter "a.p" one).1).setattr "a" (AttrVal.module childC)

/-- The root's own parameter in the collision tree. -/
def pC1 : Parameter := Parameter.init one (some "a.p")

/-- The child's parameter in the collision tree. -/
def pC2 : Parameter := Parameter.init two (some "p")

/-- A module whose attribute `"w"` is first a plain field, then also a
registered parameter. -/
def mShadow : Module := (Module.init).setattr "w" (AttrVal.plain (Plain.int 3))

def mShadow2 : Module := (mShadow.add_parameter "w" five).1

/-! ### Claims -/

/-- Claim C1, counterexample: assigning a plain value under `"x"` and then a
`Parameter` under the same name leaves `"x"` present in BOTH the plain-field
storage (still holding `7`) and the parameter mapping — `__setattr__` never
removes the old storage class's entry, so the storage classes are not
mutually exclusive and the old entry is still present. -/
theorem C1_storage_not_exclusive :
    dictLookup (Module.paramsOf
      (((Module.init).setattr "x" (AttrVal.plain (Plain.int 7))).setattr "x"
        (AttrVal.param (Parameter.init five none)))) "x" =
      some (Parameter.init five none) ∧
    dictLookup (Module.fieldsOf
      (((Module.init).setattr "x" (AttrVal.plain (Plain.int 7))).setattr "x"
        (AttrVal.param (Parameter.init five none)))) "x" = some (Plain.int 7) :=
  ⟨rfl, rfl⟩

/-- Claim C1, amended: assignment routes the value into the storage class
determined by its runtime type — `Parameter` to the parameter mapping,
`Module` to the child mapping, anything else to plain fields — overwriting
any same-class entry under that name, and leaves the other two storage
classes completely untouched; in particular an entry the name had in a
different storage class is NOT removed, so a name can inhabit several
storage classes at once. -/
theorem C1_setattr_routing (m : Module) (k : String) (p : Parameter) (c : Module)
    (x : Plain) :
    (dictLookup (Module.paramsOf (m.setattr k (AttrVal.param p))) k = some p ∧
      Module.modsOf (m.setattr k (AttrVal.param p)) = Module.modsOf m ∧
      Module.fieldsOf (m.setattr k (AttrVal.param p)) = Module.fieldsOf m) ∧
    (mlLookup (Module.modsOf (m.setattr k (AttrVal.module c))) k = some c ∧
      Module.paramsOf (m.setattr k (AttrVal.module c)) = Module.paramsOf m ∧
      Module.fieldsOf (m.setattr k (AttrVal.module c)) = Module.fieldsOf m) ∧
    (dictLookup (Module.fieldsOf (m.setattr k (AttrVal.plain x))) k = some x ∧
      Module.paramsOf (m.setattr k (AttrVal.plain x)) = Module.paramsOf m ∧
      Module.modsOf (m.setattr k (AttrVal.plain x)) = Module.modsOf m) := by
  obtain ⟨ps, ms, fs⟩ := m
  exact ⟨⟨lookup_insert_self ps k p, rfl, rfl⟩,
    ⟨mlLookup_insert_self k c ms, rfl, rfl⟩,
    ⟨lookup_insert_self fs k x, rfl, rfl⟩⟩

/-- Claim C2: on a fresh module, reading `"w"` — a name that is no plain
field, no parameter and no child — reaches `__getattr__`'s fall-through,
which has no `raise` and so produces Python `None` (modelled `none`); the
code never signals AttributeNotFound, contrary to the claim. -/
theorem C2_getattr_fallthrough :
    dictLookup (Module.fieldsOf Module.init) "w" = none ∧
    dictLookup (Module.paramsOf Module.init) "w" = none ∧
    mlLookup (Module.modsOf Module.init) "w" = none ∧
    Module.getattr Module.init "w" = none ∧
    Module.readAttr Module.init "w" = none :=
  ⟨rfl, rfl, rfl, rfl, rfl⟩

/-- Claim C3, counterexample: in the collision tree `rootC` (root parameter
named `"a.p"`, child `"a"` with parameter `"p"`), the pair
`("a.p", pC1)` is one of the claimed pairs — `pC1` is owned by the root and
`"a.p"` is its local name — yet it is absent from `named_parameters()`,
because the child's prefixed entry overwrote it in the dict merge; so the
result is not "exactly the pairs" the claim describes. -/
theorem C3_collision_drops_pair :
    ("a.p", pC1) ∈ Module.specNamed rootC ∧
    Module.specNamed rootC = [("a.p", pC1), ("a.p", pC2)] ∧
    Module.named_parameters rootC = [("a.p", pC2)] ∧
    ("a.p", pC1) ∉ Module.named_parameters rootC := by
  refine ⟨?_, ?_, ?_, ?_⟩ <;> decide

/-- Claim C3, amended: provided every flattened dotted path is distinct (and
the module's dicts are genuine dicts, i.e. duplicate-free — true of every
Python dict), `named_parameters()` returns exactly the claimed enumeration:
this module's own parameters first in insertion order, then each child's
contribution recursively under `child.name`-dotted keys, in child-insertion
order. -/
theorem C3_named_parameters_distinct (m : Module) (hwf : Module.wf m = true)
    (hdistinct : nodupKeys (Module.specNamed m) = true) :
    Module.named_parameters m = Module.specNamed m := by
  rw [Module.named_parameters, namedParams_collapse m hwf, collapse_self _ hdistinct]

/-- Claim C3, witness: on the spec's example tree the theorem applies and
yields `[("p", five), ("a.p2", ten)]` in that order. -/
theorem C3_named_parameters_distinct_witness :
    Module.named_parameters rootEx = Module.specNamed rootEx ∧
    Module.named_parameters rootEx =
      [("p", Parameter.init five (some "p")), ("a.p2", Parameter.init ten (some "p2"))] :=
  ⟨C3_named_parameters_distinct rootEx (by decide) (by decide), by decide⟩

/-- Claim C4: `train()` sets the `training` flag to `True` on the module and
every descendant, `eval()` sets it to `False` on the module and every
descendant, and `train()` followed by `eval()` leaves every module in the
tree with `training == False`. -/
theorem C4_train_eval_propagate (m : Module) :
    Module.allTraining true (Module.train m) = true ∧
    Module.allTraining false (Module.eval m) = true ∧
    Module.allTraining false (Module.eval (Module.train m)) = true :=
  ⟨train_allTraining m, eval_allTraining m, eval_allTraining (Module.train m)⟩

/-- Claim C5, counterexample: if `"w"` is already a plain instance field
(here `3`), then after `add_parameter("w", 5)` the parameter is stored in
the parameter mapping, but reading attribute `"w"` still yields the plain
field `3` — Python consults the instance `__dict__` before `__getattr__` —
so the read does not yield the created Parameter. -/
theorem C5_plain_field_shadows :
    Module.readAttr mShadow2 "w" = some (AttrVal.plain (Plain.int 3)) ∧
    dictLookup (Module.paramsOf mShadow2) "w" = some (Parameter.init five (some "w")) ∧
    Module.readAttr mShadow2 "w" ≠ some (AttrVal.param (Parameter.init five (some "w"))) := by
  refine ⟨rfl, rfl, ?_⟩
  intro h
  rw [show Module.readAttr mShadow2 "w" = some (AttrVal.plain (Plain.int 3)) from rfl] at h
  simp at h

/-- Claim C5, amended: `add_parameter(k, v)` creates `Parameter(v, k)` (the
gradient-flag and name-propagation rule applied with name `k`), stores it in
the parameter mapping under `k` overwriting any existing entry, leaves the
child mapping and the plain fields untouched, and returns it; and provided
`k` is not a plain instance field of the module, subsequently reading
attribute `k` yields that Parameter. -/
theorem C5_add_parameter (m : Module) (k : String) (v : PValue) :
    (m.add_parameter k v).2 = Parameter.init v (some k) ∧
    dictLookup (Module.paramsOf (m.add_parameter k v).1) k =
      some ((m.add_parameter k v).2) ∧
    Module.modsOf (m.add_parameter k v).1 = Module.modsOf m ∧
    Module.fieldsOf (m.add_parameter k v).1 = Module.fieldsOf m ∧
    (dictLookup (Module.fieldsOf m) k = none →
      Module.readAttr (m.add_parameter k v).1 k =
        some (AttrVal.param ((m.add_parameter k v).2))) := by
  obtain ⟨ps, ms, fs⟩ := m
  refine ⟨rfl, lookup_insert_self ps k (Parameter.init v (some k)), rfl, rfl, ?_⟩
  intro hf
  simp only [Module.fieldsOf] at hf
  simp [Module.add_parameter, Module.readAttr, Module.fieldsOf, hf, Module.getattr,
    Module.paramsOf, lookup_insert_self]

/-- Claim C5, witness: on a fresh module, `add_parameter("w", 5)` then
reading `"w"` yields the created Parameter, whose wrapped value is `5`. -/
theorem C5_add_parameter_witness :
    dictLookup (Module.fieldsOf Module.init) "w" = none ∧
    Module.readAttr ((Module.init).add_parameter "w" five).1 "w" =
      some (AttrVal.param (((Module.init).add_parameter "w" five).2)) ∧
    (((Module.init).add_parameter "w" five).2).value.payload = 5 :=
  ⟨rfl, (C5_add_parameter Module.init "w" five).2.2.2.2 rfl, rfl⟩

/-- Claim C6, counterexample: a Parameter constructed with the present but
empty name `""` does not propagate its name on update — `if self.name:` is
false for the empty string — so the updated value keeps its own name
`"orig"` even though `y` exposes the gradient toggle. -/
theorem C6_empty_name_not_propagated :
    (Parameter.init five (some "")).name = some "" ∧
    yGrad.hasRequiresGrad = true ∧
    ((Parameter.init five (some "")).update yGrad).value.name = some "orig" ∧
    ((Parameter.init five (some "")).update yGrad).value.name ≠
      (Parameter.init five (some "")).name := by
  refine ⟨rfl, rfl, rfl, ?_⟩
  decide

/-- Claim C6, amended: `P.update(y)` leaves `P.name` unchanged and replaces
`P.value` with `y`, reapplying the construction-time rule: when `y` exposes
the gradient toggle it is enabled, and a NON-EMPTY present name is
propagated onto `y` (an empty-string or absent name is not, matching the
code's truthiness test `if self.name:`); without the toggle, `y` is stored
unchanged. -/
theorem C6_update_rule (x : PValue) (n : Option String) (y : PValue) :
    ((Parameter.init x n).update y).name = n ∧
    (y.hasRequiresGrad = false → ((Parameter.init x n).update y).value = y) ∧
    (y.hasRequiresGrad = true →
      ((Parameter.init x n).update y).value.requiresGrad = true ∧
      ((Parameter.init x n).update y).value.payload = y.payload ∧
      ((Parameter.init x n).update y).value.hasRequiresGrad = true ∧
      (truthyName n = true → ((Parameter.init x n).update y).value.name = n) ∧
      (truthyName n = false → ((Parameter.init x n).update y).value.name = y.name)) := by
  refine ⟨rfl, ?_, ?_⟩
  · intro hg
    simp [Parameter.init, Parameter.update, applyGradRule, hg]
  · intro hg
    by_cases ht : truthyName n = true
    · simp [Parameter.init, Parameter.update, applyGradRule, hg, ht]
    · simp only [Bool.not_eq_true] at ht
      simp [Parameter.init, Parameter.update, applyGradRule, hg, ht]

/-- Claim C6, witness: with the non-empty name `"nm"` and a toggle-capable
`y`, update keeps the name, enables the toggle and propagates the name. -/
theorem C6_update_rule_witness :
    truthyName (some "nm") = true ∧
    yGrad.hasRequiresGrad = true ∧
    ((Parameter.init five (some "nm")).update yGrad).name = some "nm" ∧
    ((Parameter.init five (some "nm")).update yGrad).value.requiresGrad = true ∧
    ((Parameter.init five (some "nm")).update yGrad).value.name = some "nm" :=
  ⟨rfl, rfl, (C6_update_rule five (some "nm") yGrad).1,
    ((C6_update_rule five (some "nm") yGrad).2.2 rfl).1,
    (((C6_update_rule five (some "nm") yGrad).2.2 rfl).2.2.2.1) rfl⟩

/-- Claim C7: on the base type, `forward` fails with the
"Not Implemented" error for every module, and calling a module
(function-call syntax, `__call__`) is exactly calling `forward`. -/
theorem C7_forward_not_implemented (m : Module) :
    Module.call m = Module.forward m ∧
    Module.forward m = Except.error "Not Implemented" :=
  ⟨rfl, rfl⟩

/-- Claim C8: `parameters()` has the same length as `named_parameters()`
and its i-th element is the Parameter component of the i-th pair — the
names are discarded, order preserved. -/
theorem C8_parameters_correspond (m : Module) :
    (Module.parameters m).length = (Module.named_parameters m).length ∧
    ∀ (i : Nat) (h1 : i < (Module.parameters m).length)
      (h2 : i < (Module.named_parameters m).length),
      (Module.parameters m).get ⟨i, h1⟩ = ((Module.named_parameters m).get ⟨i, h2⟩).2 := by
  constructor
  · simp [Module.parameters]
  · intro i h1 h2
    simp [Module.parameters]

/-- Claim C8, witness: on the example tree, lengths agree and the first
parameter is the value component of the first named pair. -/
theorem C8_parameters_correspond_witness :
    (Module.parameters rootEx).length = (Module.named_parameters rootEx).length ∧
    (Module.parameters rootEx).get ⟨0, by decide⟩ =
      ((Module.named_parameters rootEx).get ⟨0, by decide⟩).2 :=
  ⟨(C8_parameters_correspond rootEx).1,
    (C8_parameters_correspond rootEx).2 0 (by decide) (by decide)⟩

/-- Claim C9: the flattened enumeration is merged into a single dict, so
exactly one pair survives per key (`nodupKeys`), and the surviving value
under any key is the LAST contribution in enumeration order (the lookup in
the reversed claimed enumeration `specNamed`) — later contributions, i.e. a
child's prefixed entries, overwrite earlier ones. -/
theorem C9_last_write_wins (m : Module) (k : String) (hwf : Module.wf m = true) :
    nodupKeys (Module._named_parameters m) = true ∧
    dictLookup (Module._named_parameters m) k =
      dictLookup (Module.specNamed m).reverse k := by
  constructor
  · rw [namedParams_collapse m hwf]
    exact nodup_collapse _
  · rw [namedParams_collapse m hwf, lookup_collapse]

/-- Claim C9, witness: in the collision tree both the root's `"a.p"` and the
child's prefixed `"a.p"` flatten to the same key; exactly one pair survives
and it carries the child's (later) parameter `pC2`. -/
theorem C9_last_write_wins_witness :
    nodupKeys (Module._named_parameters rootC) = true ∧
    dictLookup (Module._named_parameters rootC) "a.p" =
      dictLookup (Module.specNamed rootC).reverse "a.p" ∧
    dictLookup (Module._named_parameters rootC) "a.p" = some pC2 :=
  ⟨(C9_last_write_wins rootC "a.p" (by decide)).1,
    (C9_last_write_wins rootC "a.p" (by decide)).2, rfl⟩

/-- Claim C10: `train()` and `eval()` only touch `training` flags — erasing
the `training` entries from every module of the two trees yields identical
trees, so every parameter mapping (each Parameter's value and name
included), every child mapping and every other plain field, at every depth,
is unchanged. -/
theorem C10_train_eval_frame (m : Module) :
    Module.eraseT (Module.train m) = Module.eraseT m ∧
    Module.eraseT (Module.eval m) = Module.eraseT m ∧
    Module.paramsOf (Module.train m) = Module.paramsOf m ∧
    Module.paramsOf (Module.eval m) = Module.paramsOf m := by
  refine ⟨eraseT_train m, eraseT_eval m, ?_, ?_⟩ <;>
    obtain ⟨ps, ms, fs⟩ := m <;> rfl

end Minitorch
